import Mathlib

/-!
Verification development for the XQsim patch-trace interface layer
(src/patch_trace_backend.py and src/api_server.py).

The development shallowly embeds the observation / formatting layer:
the value normalizer, the patch snapshot and delta engine, the
stability oracle, the sys.exit interceptor, the cycle-stepped driver
loop of trace_patches_from_qasm, and the /trace endpoint of the API
server.  The wrapped XQsim simulator itself is an external
collaborator that is not part of this repository; where its behavior
is needed (per-cycle phase stepping, the readable cycle counter) it is
modelled from the spec.
-/

namespace XQsimTrace

/-! ## Value normalizer (_to_json_safe)

Host values reaching the normalizer are modelled as an inductive type
covering exactly the categories the Python code distinguishes:
None, bool, int, float, str, bytes (carried already utf-8 decoded with
replacement, as decoding with errors="replace" is total), the numpy
scalar and array wrappers, objects exposing a .value attribute
(Enum-like), objects exposing a .name attribute but no .value,
dicts, lists, tuples, and an unrecognized-type fallback carrying the
printable representation str(value).  Python floats are opaque tokens
here: the normalizer only passes them through unchanged. -/

/-- Nested numpy array content; ndarray.tolist() produces nested lists
of native numbers. -/
inductive NpArr where
  | ofInt (i : Int)
  | ofFloat (f : String)
  | arr (elems : List NpArr)
deriving Repr

/-- A runtime value as seen by _to_json_safe. -/
inductive PyValue where
  | none
  | bool (b : Bool)
  | int (i : Int)
  | float (f : String)
  | str (s : String)
  | bytes (decoded : String)
  | npInt (i : Int)
  | npFloat (f : String)
  | npBool (b : Bool)
  | npArray (a : NpArr)
  | withValue (v : PyValue)
  | withName (n : String)
  | dict (entries : List (PyValue × PyValue))
  | list (elems : List PyValue)
  | tuple (elems : List PyValue)
  | other (repr : String)
deriving Repr

mutual
/-- Embedding of ndarray.tolist(): nested native lists of numbers. -/
def NpArr.tolist : NpArr → PyValue
  | .ofInt i => .int i
  | .ofFloat f => .float f
  | .arr l => .list (NpArr.tolistList l)

def NpArr.tolistList : List NpArr → List PyValue
  | [] => []
  | a :: rest => NpArr.tolist a :: NpArr.tolistList rest
end

/-- A raised Python exception, as far as the embedding distinguishes
them. -/
inductive PyError where
  | nameError (name : String)
  | typeError (msg : String)
deriving DecidableEq, Repr

/-- Whether a normalized value is hashable, hence usable as a key of the
rebuilt Python dict: the normalizer only ever returns None, bool, int,
float, str, list or dict, and of these exactly list and dict are
unhashable. -/
def isHashableJson : PyValue → Bool
  | .none => true
  | .bool _ => true
  | .int _ => true
  | .float _ => true
  | .str _ => true
  | _ => false

/-- Python key equality on normalized (hashable) keys, as used by the
dict rebuild: bool is an int subtype, so True equals 1 and False equals
0.  Floats are opaque tokens in this embedding, equal only to the
identical token; cross-type numeric equality involving floats (and the
NaN identity shortcut) is outside the embedding. -/
def pyKeyEq : PyValue → PyValue → Bool
  | .none, .none => true
  | .bool a, .bool b => a == b
  | .int a, .int b => a == b
  | .str a, .str b => a == b
  | .float a, .float b => a == b
  | .bool a, .int b => (if a then (1 : Int) else 0) == b
  | .int a, .bool b => a == (if b then (1 : Int) else 0)
  | _, _ => false

/-- One d[k] = v insertion of the Python dict rebuild: an existing equal
key keeps its position (and key object) with the value updated,
otherwise the pair is appended. -/
def dictSetItem (d : List (PyValue × PyValue)) (k v : PyValue) :
    List (PyValue × PyValue) :=
  match d with
  | [] => [(k, v)]
  | (k0, v0) :: rest =>
    if pyKeyEq k0 k then (k0, v) :: rest
    else (k0, v0) :: dictSetItem rest k v

/-- The rebuilt dict: normalized pairs inserted in iteration order, a
later duplicate key overwriting the earlier value (last wins). -/
def dictBuild (ps : List (PyValue × PyValue)) : List (PyValue × PyValue) :=
  ps.foldl (fun acc kv => dictSetItem acc kv.1 kv.2) []

mutual
/-- Embedding of _to_json_safe from patch_trace_backend.py: normalize an
arbitrary runtime value into a JSON-serializable one.  bytes are decoded
(decoding already applied in the model), numpy wrappers are unwrapped,
Enum-like values recurse into .value, name-bearing objects become their
name string, containers recurse, and anything unrecognized falls back to
its printable representation.  The dict branch rebuilds a Python dict
from the normalized pairs, so each normalized key must be hashable: a
key normalizing to a list or dict raises TypeError at that pair, before
the later pairs are processed. -/
def toJsonSafe : PyValue → Except PyError PyValue
  | .none => .ok .none
  | .bool b => .ok (.bool b)
  | .int i => .ok (.int i)
  | .float f => .ok (.float f)
  | .str s => .ok (.str s)
  | .bytes decoded => .ok (.str decoded)
  | .npInt i => .ok (.int i)
  | .npFloat f => .ok (.float f)
  | .npArray a => .ok (NpArr.tolist a)
  | .npBool b => .ok (.bool b)
  | .withValue v => toJsonSafe v
  | .withName n => .ok (.str n)
  | .dict entries =>
    match toJsonSafePairs entries with
    | .error e => .error e
    | .ok ps => .ok (.dict (dictBuild ps))
  | .list elems =>
    match toJsonSafeList elems with
    | .error e => .error e
    | .ok rs => .ok (.list rs)
  | .tuple elems =>
    match toJsonSafeList elems with
    | .error e => .error e
    | .ok rs => .ok (.list rs)
  | .other r => .ok (.str r)

def toJsonSafeList : List PyValue → Except PyError (List PyValue)
  | [] => .ok []
  | v :: rest =>
    match toJsonSafe v with
    | .error e => .error e
    | .ok r =>
      match toJsonSafeList rest with
      | .error e => .error e
      | .ok rs => .ok (r :: rs)

/-- The per-pair work of the dict comprehension: normalize the key, then
the value, then require the normalized key hashable; the first failing
pair raises and later pairs are not reached. -/
def toJsonSafePairs : List (PyValue × PyValue) →
    Except PyError (List (PyValue × PyValue))
  | [] => .ok []
  | (k, v) :: rest =>
    match toJsonSafe k with
    | .error e => .error e
    | .ok k1 =>
      match toJsonSafe v with
      | .error e => .error e
      | .ok v1 =>
        if isHashableJson k1 then
          match toJsonSafePairs rest with
          | .error e => .error e
          | .ok ps => .ok ((k1, v1) :: ps)
        else
          .error (.typeError "unhashable type")
end

mutual
/-- A value is JSON-safe when it is null, a bool, a number, a string, or
a container of JSON-safe values. -/
def isJsonSafe : PyValue → Bool
  | .none => true
  | .bool _ => true
  | .int _ => true
  | .float _ => true
  | .str _ => true
  | .dict entries => isJsonSafePairs entries
  | .list elems => isJsonSafeList elems
  | _ => false

def isJsonSafeList : List PyValue → Bool
  | [] => true
  | v :: rest => isJsonSafe v && isJsonSafeList rest

def isJsonSafePairs : List (PyValue × PyValue) → Bool
  | [] => true
  | (k, v) :: rest => isJsonSafe k && isJsonSafe v && isJsonSafePairs rest
end

theorem npArr_tolist_safe : ∀ a : NpArr, isJsonSafe (NpArr.tolist a) = true := by
  have main : ∀ n : Nat, (∀ a : NpArr, sizeOf a < n → isJsonSafe (NpArr.tolist a) = true) ∧
      (∀ l : List NpArr, sizeOf l < n → isJsonSafeList (NpArr.tolistList l) = true) := by
    intro n
    induction n with
    | zero => exact ⟨fun a h => absurd h (Nat.not_lt_zero _), fun l h => absurd h (Nat.not_lt_zero _)⟩
    | succ n ih =>
      constructor
      · intro a ha
        cases a with
        | ofInt i => simp [NpArr.tolist, isJsonSafe]
        | ofFloat f => simp [NpArr.tolist, isJsonSafe]
        | arr l =>
          have hl : sizeOf l < n := by
            have : sizeOf (NpArr.arr l) = 1 + sizeOf l := by simp
            omega
          simp only [NpArr.tolist, isJsonSafe]
          exact ih.2 l hl
      · intro l hl
        cases l with
        | nil => simp [NpArr.tolistList, isJsonSafeList]
        | cons a rest =>
          have h1 : sizeOf a < n := by
            have : sizeOf (a :: rest) = 1 + sizeOf a + sizeOf rest := by simp
            omega
          have h2 : sizeOf rest < n := by
            have : sizeOf (a :: rest) = 1 + sizeOf a + sizeOf rest := by simp
            omega
          simp only [NpArr.tolistList, isJsonSafeList, Bool.and_eq_true]
          exact ⟨ih.1 a h1, ih.2 rest h2⟩
  intro a
  exact (main (sizeOf a + 1)).1 a (Nat.lt_succ_self _)

def exceptOk {ε α : Type} : Except ε α → Bool
  | .ok _ => true
  | .error _ => false

theorem exceptOk_exists {ε α : Type} (x : Except ε α) (h : exceptOk x = true) :
    ∃ a, x = .ok a := by
  cases x with
  | ok a => exact ⟨a, rfl⟩
  | error e => simp [exceptOk] at h

/-- Whether the normalized form of a value is a hashable scalar, decided
structurally on the input: this characterizes which mapping keys let the
dict rebuild succeed. -/
def normKeyScalar : PyValue → Bool
  | .withValue v => normKeyScalar v
  | .npArray a =>
    match a with
    | .arr _ => false
    | _ => true
  | .dict _ => false
  | .list _ => false
  | .tuple _ => false
  | _ => true

mutual
/-- No mapping key anywhere inside the value normalizes to an unhashable
value. -/
def goodKeys : PyValue → Bool
  | .withValue v => goodKeys v
  | .dict entries => goodKeysPairs entries
  | .list es => goodKeysList es
  | .tuple es => goodKeysList es
  | _ => true

def goodKeysList : List PyValue → Bool
  | [] => true
  | v :: rest => goodKeys v && goodKeysList rest

def goodKeysPairs : List (PyValue × PyValue) → Bool
  | [] => true
  | (k, v) :: rest =>
    normKeyScalar k && goodKeys k && goodKeys v && goodKeysPairs rest
end

theorem isJsonSafeList_iff (l : List PyValue) :
    isJsonSafeList l = true ↔ ∀ v ∈ l, isJsonSafe v = true := by
  induction l with
  | nil => simp [isJsonSafeList]
  | cons v rest ih => simp [isJsonSafeList, Bool.and_eq_true, ih]

theorem isJsonSafePairs_iff (ps : List (PyValue × PyValue)) :
    isJsonSafePairs ps = true
      ↔ ∀ p ∈ ps, isJsonSafe p.1 = true ∧ isJsonSafe p.2 = true := by
  induction ps with
  | nil => simp [isJsonSafePairs]
  | cons p rest ih =>
    obtain ⟨k, v⟩ := p
    simp [isJsonSafePairs, Bool.and_eq_true, ih, and_assoc]

theorem mem_dictSetItem (d : List (PyValue × PyValue)) (k v : PyValue)
    (p : PyValue × PyValue) (hp : p ∈ dictSetItem d k v) :
    (p.1 = k ∨ ∃ q ∈ d, p.1 = q.1) ∧ (p.2 = v ∨ ∃ q ∈ d, p.2 = q.2) := by
  induction d with
  | nil =>
    simp only [dictSetItem, List.mem_singleton] at hp
    subst hp
    exact ⟨Or.inl rfl, Or.inl rfl⟩
  | cons q0 rest ih =>
    obtain ⟨k0, v0⟩ := q0
    rw [dictSetItem] at hp
    by_cases he : pyKeyEq k0 k = true
    · rw [if_pos he] at hp
      rcases List.mem_cons.mp hp with hp | hp
      · subst hp
        exact ⟨Or.inr ⟨(k0, v0), List.mem_cons_self _ _, rfl⟩, Or.inl rfl⟩
      · exact ⟨Or.inr ⟨p, List.mem_cons_of_mem _ hp, rfl⟩,
          Or.inr ⟨p, List.mem_cons_of_mem _ hp, rfl⟩⟩
    · rw [if_neg he] at hp
      rcases List.mem_cons.mp hp with hp | hp
      · subst hp
        exact ⟨Or.inr ⟨(k0, v0), List.mem_cons_self _ _, rfl⟩,
          Or.inr ⟨(k0, v0), List.mem_cons_self _ _, rfl⟩⟩
      · rcases ih hp with ⟨h1, h2⟩
        constructor
        · rcases h1 with h1 | ⟨q, hq, hq1⟩
          · exact Or.inl h1
          · exact Or.inr ⟨q, List.mem_cons_of_mem _ hq, hq1⟩
        · rcases h2 with h2 | ⟨q, hq, hq2⟩
          · exact Or.inl h2
          · exact Or.inr ⟨q, List.mem_cons_of_mem _ hq, hq2⟩

theorem mem_dictBuild_aux :
    ∀ (ps acc : List (PyValue × PyValue)) (p : PyValue × PyValue),
      p ∈ ps.foldl (fun a kv => dictSetItem a kv.1 kv.2) acc →
      ((∃ q ∈ acc, p.1 = q.1) ∨ (∃ q ∈ ps, p.1 = q.1))
      ∧ ((∃ q ∈ acc, p.2 = q.2) ∨ (∃ q ∈ ps, p.2 = q.2)) := by
  intro ps
  induction ps with
  | nil =>
    intro acc p hp
    simp only [List.foldl_nil] at hp
    exact ⟨Or.inl ⟨p, hp, rfl⟩, Or.inl ⟨p, hp, rfl⟩⟩
  | cons kv rest ih =>
    intro acc p hp
    simp only [List.foldl_cons] at hp
    rcases ih _ p hp with ⟨h1, h2⟩
    constructor
    · rcases h1 with ⟨q, hq, hq1⟩ | ⟨q, hq, hq1⟩
      · rcases (mem_dictSetItem acc kv.1 kv.2 q hq).1 with he | ⟨q2, hq2, hq21⟩
        · exact Or.inr ⟨kv, List.mem_cons_self _ _, by rw [hq1, he]⟩
        · exact Or.inl ⟨q2, hq2, by rw [hq1, hq21]⟩
      · exact Or.inr ⟨q, List.mem_cons_of_mem _ hq, hq1⟩
    · rcases h2 with ⟨q, hq, hq2⟩ | ⟨q, hq, hq2⟩
      · rcases (mem_dictSetItem acc kv.1 kv.2 q hq).2 with he | ⟨q2, hq2m, hq22⟩
        · exact Or.inr ⟨kv, List.mem_cons_self _ _, by rw [hq2, he]⟩
        · exact Or.inl ⟨q2, hq2m, by rw [hq2, hq22]⟩
      · exact Or.inr ⟨q, List.mem_cons_of_mem _ hq, hq2⟩

theorem dictBuild_safe (ps : List (PyValue × PyValue))
    (h : ∀ p ∈ ps, isJsonSafe p.1 = true ∧ isJsonSafe p.2 = true) :
    ∀ p ∈ dictBuild ps, isJsonSafe p.1 = true ∧ isJsonSafe p.2 = true := by
  intro p hp
  rcases mem_dictBuild_aux ps [] p hp with ⟨h1, h2⟩
  constructor
  · rcases h1 with ⟨q, hq, _⟩ | ⟨q, hq, hq1⟩
    · exact absurd hq (List.not_mem_nil _)
    · rw [hq1]
      exact (h q hq).1
  · rcases h2 with ⟨q, hq, _⟩ | ⟨q, hq, hq2⟩
    · exact absurd hq (List.not_mem_nil _)
    · rw [hq2]
      exact (h q hq).2

theorem toJsonSafe_ok_safe :
    ∀ (v r : PyValue), toJsonSafe v = .ok r → isJsonSafe r = true := by
  have main : ∀ n : Nat,
      (∀ v : PyValue, sizeOf v < n → ∀ r, toJsonSafe v = .ok r →
        isJsonSafe r = true) ∧
      (∀ l : List PyValue, sizeOf l < n → ∀ rs, toJsonSafeList l = .ok rs →
        isJsonSafeList rs = true) ∧
      (∀ ps : List (PyValue × PyValue), sizeOf ps < n →
        ∀ qs, toJsonSafePairs ps = .ok qs →
          ∀ p ∈ qs, isJsonSafe p.1 = true ∧ isJsonSafe p.2 = true) := by
    intro n
    induction n with
    | zero =>
      exact ⟨fun v h => absurd h (Nat.not_lt_zero _),
        fun l h => absurd h (Nat.not_lt_zero _),
        fun ps h => absurd h (Nat.not_lt_zero _)⟩
    | succ n ih =>
      refine ⟨?_, ?_, ?_⟩
      · intro v hv r hr
        cases v with
        | none => simp only [toJsonSafe, Except.ok.injEq] at hr; subst hr; rfl
        | bool b => simp only [toJsonSafe, Except.ok.injEq] at hr; subst hr; rfl
        | int i => simp only [toJsonSafe, Except.ok.injEq] at hr; subst hr; rfl
        | float f => simp only [toJsonSafe, Except.ok.injEq] at hr; subst hr; rfl
        | str s => simp only [toJsonSafe, Except.ok.injEq] at hr; subst hr; rfl
        | bytes d => simp only [toJsonSafe, Except.ok.injEq] at hr; subst hr; rfl
        | npInt i => simp only [toJsonSafe, Except.ok.injEq] at hr; subst hr; rfl
        | npFloat f => simp only [toJsonSafe, Except.ok.injEq] at hr; subst hr; rfl
        | npBool b => simp only [toJsonSafe, Except.ok.injEq] at hr; subst hr; rfl
        | npArray a =>
          simp only [toJsonSafe, Except.ok.injEq] at hr
          subst hr
          exact npArr_tolist_safe a
        | withValue w =>
          have hw : sizeOf w < n := by
            have : sizeOf (PyValue.withValue w) = 1 + sizeOf w := by simp
            omega
          simp only [toJsonSafe] at hr
          exact ih.1 w hw r hr
        | withName m => simp only [toJsonSafe, Except.ok.injEq] at hr; subst hr; rfl
        | dict entries =>
          have he : sizeOf entries < n := by
            have : sizeOf (PyValue.dict entries) = 1 + sizeOf entries := by simp
            omega
          simp only [toJsonSafe] at hr
          cases hps : toJsonSafePairs entries with
          | error e => rw [hps] at hr; simp at hr
          | ok ps =>
            rw [hps] at hr
            simp only [Except.ok.injEq] at hr
            subst hr
            show isJsonSafePairs (dictBuild ps) = true
            rw [isJsonSafePairs_iff]
            exact dictBuild_safe ps (ih.2.2 entries he ps hps)
        | list elems =>
          have he : sizeOf elems < n := by
            have : sizeOf (PyValue.list elems) = 1 + sizeOf elems := by simp
            omega
          simp only [toJsonSafe] at hr
          cases hl : toJsonSafeList elems with
          | error e => rw [hl] at hr; simp at hr
          | ok rs =>
            rw [hl] at hr
            simp only [Except.ok.injEq] at hr
            subst hr
            exact ih.2.1 elems he rs hl
        | tuple elems =>
          have he : sizeOf elems < n := by
            have : sizeOf (PyValue.tuple elems) = 1 + sizeOf elems := by simp
            omega
          simp only [toJsonSafe] at hr
          cases hl : toJsonSafeList elems with
          | error e => rw [hl] at hr; simp at hr
          | ok rs =>
            rw [hl] at hr
            simp only [Except.ok.injEq] at hr
            subst hr
            exact ih.2.1 elems he rs hl
        | other rp => simp only [toJsonSafe, Except.ok.injEq] at hr; subst hr; rfl
      · intro l hl rs hrs
        cases l with
        | nil =>
          simp only [toJsonSafeList, Except.ok.injEq] at hrs
          subst hrs
          rfl
        | cons v rest =>
          have h1 : sizeOf v < n := by
            have : sizeOf (v :: rest) = 1 + sizeOf v + sizeOf rest := by simp
            omega
          have h2 : sizeOf rest < n := by
            have : sizeOf (v :: rest) = 1 + sizeOf v + sizeOf rest := by simp
            omega
          simp only [toJsonSafeList] at hrs
          cases hv1 : toJsonSafe v with
          | error e => rw [hv1] at hrs; simp at hrs
          | ok r1 =>
            rw [hv1] at hrs
            cases hrest : toJsonSafeList rest with
            | error e => rw [hrest] at hrs; simp at hrs
            | ok rs1 =>
              rw [hrest] at hrs
              simp only [Except.ok.injEq] at hrs
              subst hrs
              simp only [isJsonSafeList, Bool.and_eq_true]
              exact ⟨ih.1 v h1 r1 hv1, ih.2.1 rest h2 rs1 hrest⟩
      · intro ps hps qs hqs
        cases ps with
        | nil =>
          simp only [toJsonSafePairs, Except.ok.injEq] at hqs
          subst hqs
          intro p hp
          exact absurd hp (List.not_mem_nil _)
        | cons kv rest =>
          obtain ⟨k, v⟩ := kv
          have h1 : sizeOf k < n := by
            have hc : sizeOf ((k, v) :: rest) = 1 + sizeOf (k, v) + sizeOf rest := by
              simp
            have hpr : sizeOf (k, v) = 1 + sizeOf k + sizeOf v := by simp
            omega
          have h2 : sizeOf v < n := by
            have hc : sizeOf ((k, v) :: rest) = 1 + sizeOf (k, v) + sizeOf rest := by
              simp
            have hpr : sizeOf (k, v) = 1 + sizeOf k + sizeOf v := by simp
            omega
          have h3 : sizeOf rest < n := by
            have hc : sizeOf ((k, v) :: rest) = 1 + sizeOf (k, v) + sizeOf rest := by
              simp
            omega
          simp only [toJsonSafePairs] at hqs
          cases hk1 : toJsonSafe k with
          | error e => rw [hk1] at hqs; simp at hqs
          | ok k1 =>
            rw [hk1] at hqs
            cases hv1 : toJsonSafe v with
            | error e => rw [hv1] at hqs; simp at hqs
            | ok v1 =>
              rw [hv1] at hqs
              dsimp only at hqs
              by_cases hh : isHashableJson k1 = true
              · rw [if_pos hh] at hqs
                cases hrest : toJsonSafePairs rest with
                | error e => rw [hrest] at hqs; simp at hqs
                | ok qs1 =>
                  rw [hrest] at hqs
                  simp only [Except.ok.injEq] at hqs
                  subst hqs
                  intro p hp
                  rcases List.mem_cons.mp hp with hp | hp
                  · subst hp
                    exact ⟨ih.1 k h1 k1 hk1, ih.1 v h2 v1 hv1⟩
                  · exact ih.2.2 rest h3 qs1 hrest p hp
              · rw [if_neg hh] at hqs
                simp at hqs
  intro v r hr
  exact (main (sizeOf v + 1)).1 v (Nat.lt_succ_self _) r hr

theorem toJsonSafe_hashable_eq :
    ∀ (k k1 : PyValue), toJsonSafe k = .ok k1 →
      isHashableJson k1 = normKeyScalar k := by
  have main : ∀ n : Nat, ∀ k : PyValue, sizeOf k < n →
      ∀ k1, toJsonSafe k = .ok k1 → isHashableJson k1 = normKeyScalar k := by
    intro n
    induction n with
    | zero => exact fun k h => absurd h (Nat.not_lt_zero _)
    | succ n ih =>
      intro k hk k1 hk1
      cases k with
      | none => simp only [toJsonSafe, Except.ok.injEq] at hk1; subst hk1; rfl
      | bool b => simp only [toJsonSafe, Except.ok.injEq] at hk1; subst hk1; rfl
      | int i => simp only [toJsonSafe, Except.ok.injEq] at hk1; subst hk1; rfl
      | float f => simp only [toJsonSafe, Except.ok.injEq] at hk1; subst hk1; rfl
      | str s => simp only [toJsonSafe, Except.ok.injEq] at hk1; subst hk1; rfl
      | bytes d => simp only [toJsonSafe, Except.ok.injEq] at hk1; subst hk1; rfl
      | npInt i => simp only [toJsonSafe, Except.ok.injEq] at hk1; subst hk1; rfl
      | npFloat f => simp only [toJsonSafe, Except.ok.injEq] at hk1; subst hk1; rfl
      | npBool b => simp only [toJsonSafe, Except.ok.injEq] at hk1; subst hk1; rfl
      | npArray a =>
        simp only [toJsonSafe, Except.ok.injEq] at hk1
        subst hk1
        cases a with
        | ofInt i => rfl
        | ofFloat f => rfl
        | arr l => rfl
      | withValue w =>
        have hw : sizeOf w < n := by
          have : sizeOf (PyValue.withValue w) = 1 + sizeOf w := by simp
          omega
        simp only [toJsonSafe] at hk1
        simp only [normKeyScalar]
        exact ih w hw k1 hk1
      | withName m => simp only [toJsonSafe, Except.ok.injEq] at hk1; subst hk1; rfl
      | dict entries =>
        simp only [toJsonSafe] at hk1
        cases hps : toJsonSafePairs entries with
        | error e => rw [hps] at hk1; simp at hk1
        | ok ps =>
          rw [hps] at hk1
          simp only [Except.ok.injEq] at hk1
          subst hk1
          rfl
      | list elems =>
        simp only [toJsonSafe] at hk1
        cases hl : toJsonSafeList elems with
        | error e => rw [hl] at hk1; simp at hk1
        | ok rs =>
          rw [hl] at hk1
          simp only [Except.ok.injEq] at hk1
          subst hk1
          rfl
      | tuple elems =>
        simp only [toJsonSafe] at hk1
        cases hl : toJsonSafeList elems with
        | error e => rw [hl] at hk1; simp at hk1
        | ok rs =>
          rw [hl] at hk1
          simp only [Except.ok.injEq] at hk1
          subst hk1
          rfl
      | other rp => simp only [toJsonSafe, Except.ok.injEq] at hk1; subst hk1; rfl
  intro k k1 hk1
  exact main (sizeOf k + 1) k (Nat.lt_succ_self _) k1 hk1

theorem toJsonSafe_goodKeys_ok :
    ∀ v : PyValue, goodKeys v = true → exceptOk (toJsonSafe v) = true := by
  have main : ∀ n : Nat,
      (∀ v : PyValue, sizeOf v < n → goodKeys v = true →
        exceptOk (toJsonSafe v) = true) ∧
      (∀ l : List PyValue, sizeOf l < n → goodKeysList l = true →
        exceptOk (toJsonSafeList l) = true) ∧
      (∀ ps : List (PyValue × PyValue), sizeOf ps < n → goodKeysPairs ps = true →
        exceptOk (toJsonSafePairs ps) = true) := by
    intro n
    induction n with
    | zero =>
      exact ⟨fun v h => absurd h (Nat.not_lt_zero _),
        fun l h => absurd h (Nat.not_lt_zero _),
        fun ps h => absurd h (Nat.not_lt_zero _)⟩
    | succ n ih =>
      refine ⟨?_, ?_, ?_⟩
      · intro v hv hg
        cases v with
        | none => rfl
        | bool b => rfl
        | int i => rfl
        | float f => rfl
        | str s => rfl
        | bytes d => rfl
        | npInt i => rfl
        | npFloat f => rfl
        | npBool b => rfl
        | npArray a => rfl
        | withValue w =>
          have hw : sizeOf w < n := by
            have : sizeOf (PyValue.withValue w) = 1 + sizeOf w := by simp
            omega
          simp only [goodKeys] at hg
          simp only [toJsonSafe]
          exact ih.1 w hw hg
        | withName m => rfl
        | dict entries =>
          have he : sizeOf entries < n := by
            have : sizeOf (PyValue.dict entries) = 1 + sizeOf entries := by simp
            omega
          simp only [goodKeys] at hg
          rcases exceptOk_exists _ (ih.2.2 entries he hg) with ⟨ps, hps⟩
          simp [toJsonSafe, hps, exceptOk]
        | list elems =>
          have he : sizeOf elems < n := by
            have : sizeOf (PyValue.list elems) = 1 + sizeOf elems := by simp
            omega
          simp only [goodKeys] at hg
          rcases exceptOk_exists _ (ih.2.1 elems he hg) with ⟨rs, hrs⟩
          simp [toJsonSafe, hrs, exceptOk]
        | tuple elems =>
          have he : sizeOf elems < n := by
            have : sizeOf (PyValue.tuple elems) = 1 + sizeOf elems := by simp
            omega
          simp only [goodKeys] at hg
          rcases exceptOk_exists _ (ih.2.1 elems he hg) with ⟨rs, hrs⟩
          simp [toJsonSafe, hrs, exceptOk]
        | other rp => rfl
      · intro l hl hg
        cases l with
        | nil => rfl
        | cons v rest =>
          have h1 : sizeOf v < n := by
            have : sizeOf (v :: rest) = 1 + sizeOf v + sizeOf rest := by simp
            omega
          have h2 : sizeOf rest < n := by
            have : sizeOf (v :: rest) = 1 + sizeOf v + sizeOf rest := by simp
            omega
          simp only [goodKeysList, Bool.and_eq_true] at hg
          rcases exceptOk_exists _ (ih.1 v h1 hg.1) with ⟨r1, hr1⟩
          rcases exceptOk_exists _ (ih.2.1 rest h2 hg.2) with ⟨rs1, hrs1⟩
          simp [toJsonSafeList, hr1, hrs1, exceptOk]
      · intro ps hps hg
        cases ps with
        | nil => rfl
        | cons kv rest =>
          obtain ⟨k, v⟩ := kv
          have h1 : sizeOf k < n := by
            have hc : sizeOf ((k, v) :: rest) = 1 + sizeOf (k, v) + sizeOf rest := by
              simp
            have hpr : sizeOf (k, v) = 1 + sizeOf k + sizeOf v := by simp
            omega
          have h2 : sizeOf v < n := by
            have hc : sizeOf ((k, v) :: rest) = 1 + sizeOf (k, v) + sizeOf rest := by
              simp
            have hpr : sizeOf (k, v) = 1 + sizeOf k + sizeOf v := by simp
            omega
          have h3 : sizeOf rest < n := by
            have hc : sizeOf ((k, v) :: rest) = 1 + sizeOf (k, v) + sizeOf rest := by
              simp
            omega
          unfold goodKeysPairs at hg
          rw [Bool.and_eq_true, Bool.and_eq_true, Bool.and_eq_true] at hg
          obtain ⟨⟨⟨hscalar, hgk⟩, hgv⟩, hgrest⟩ := hg
          rcases exceptOk_exists _ (ih.1 k h1 hgk) with ⟨k1, hk1⟩
          rcases exceptOk_exists _ (ih.1 v h2 hgv) with ⟨v1, hv1⟩
          rcases exceptOk_exists _ (ih.2.2 rest h3 hgrest) with ⟨qs1, hqs1⟩
          have hh : isHashableJson k1 = true := by
            rw [toJsonSafe_hashable_eq k k1 hk1]
            exact hscalar
          simp [toJsonSafePairs, hk1, hv1, hh, hqs1, exceptOk]
  intro v hg
  exact (main (sizeOf v + 1)).1 v (Nat.lt_succ_self _) hg

/-- A mapping with a key that normalizes to an unhashable value: the
tuple key normalizes to a list, and rebuilding the normalized dict
raises TypeError. -/
def badDict : PyValue := .dict [(.tuple [], .none)]

/-- C6 counterexample: the normalizer does raise on a representable
input from the categories the claim enumerates (a mapping whose key is
a nested sequence): the tuple key normalizes to a list, which is
unhashable when the normalized dict is rebuilt, so the call raises
TypeError instead of returning a value. -/
theorem c6_unhashable_key_counterexample :
    toJsonSafe badDict = .error (PyError.typeError "unhashable type") := rfl

/-- C6 (amended): the normalizer returns a JSON-safe value whenever it
returns at all, and an unclassifiable value still yields its printable
string representation; but it is not total on mappings: it raises
TypeError when a mapping key normalizes to an unhashable value (a list
or dict), and for every input with no such key it never raises. -/
theorem c6_to_json_safe_amended :
    (∀ (v r : PyValue), toJsonSafe v = .ok r → isJsonSafe r = true)
    ∧ (∀ v : PyValue, goodKeys v = true → exceptOk (toJsonSafe v) = true)
    ∧ (∀ r : String, toJsonSafe (PyValue.other r) = .ok (.str r)) :=
  ⟨toJsonSafe_ok_safe, toJsonSafe_goodKeys_ok, fun _ => rfl⟩

/-! ## Patch snapshot and delta engine

Embedding of _format_facebd, _format_cornerbd, _take_full_patch_snapshot
and _diff_patch_snapshots.  The PIU boundary rams hold lists of strings
in the source (List[str]); _to_json_safe is the identity on strings
(toJsonSafe (.str s) = .str s), so the boundary fields are carried as
plain strings here.  The pchinfo_static_ram entry is modelled by its
"pchtype" field only, with none standing for dict.get returning None
when the key is absent.  merged_reg / merged_mem are Option-wrapped:
none models hasattr(piu, ...) being false. -/

structure FaceBd where
  w : String
  n : String
  e : String
  s : String
deriving DecidableEq, Repr

structure CornerBd where
  nw : String
  ne : String
  sw : String
  se : String
deriving DecidableEq, Repr

structure MergedFlags where
  reg : Nat
  mem : Nat
deriving DecidableEq, Repr

/-- One cell of the patch grid, as assembled by _take_full_patch_snapshot. -/
structure PatchRecord where
  pchidx : Nat
  row : Nat
  col : Nat
  pchtype : Option String
  merged : MergedFlags
  facebd : FaceBd
  cornerbd : CornerBd
deriving DecidableEq, Repr

/-- Embedding of _format_facebd: unpacking order (w, n, e, s); a list of
the wrong length degrades to the all-empty placeholder. -/
def formatFacebd (facebd_list : List String) : FaceBd :=
  if facebd_list.length = 4 then
    { w := facebd_list.getD 0 "", n := facebd_list.getD 1 "",
      e := facebd_list.getD 2 "", s := facebd_list.getD 3 "" }
  else
    { w := "", n := "", e := "", s := "" }

/-- Embedding of _format_cornerbd: unpacking order (nw, ne, sw, se); a
list of the wrong length degrades to the all-empty placeholder. -/
def formatCornerbd (cornerbd_list : List String) : CornerBd :=
  if cornerbd_list.length = 4 then
    { nw := cornerbd_list.getD 0 "", ne := cornerbd_list.getD 1 "",
      sw := cornerbd_list.getD 2 "", se := cornerbd_list.getD 3 "" }
  else
    { nw := "", ne := "", sw := "", se := "" }

/-- Simulator parameters consumed by the interface layer: grid shape and
the opcode table used by _opcode_to_inst_name.  An opcode attribute that
is absent on the param object is modelled as none. -/
structure Params where
  num_pch : Nat
  num_pchcol : Nat
  num_pchrow : Nat
  PREP_INFO_opcode : Option String
  MERGE_INFO_opcode : Option String
  SPLIT_INFO_opcode : Option String
  LQI_opcode : Option String
  RUN_ESM_opcode : Option String
  INIT_INTMD_opcode : Option String
  MEAS_INTMD_opcode : Option String
  PPM_INTERPRET_opcode : Option String
  LQM_X_opcode : Option String
  LQM_Y_opcode : Option String
  LQM_Z_opcode : Option String
  LQM_FB_opcode : Option String
deriving DecidableEq, Repr

/-- Observable PIU state read by _take_full_patch_snapshot.  The rams
have one entry per patch index (grid size is fixed at setup time). -/
structure PiuState where
  pchinfo_static_ram : List (Option String)
  facebd_ram : List (List String)
  cornerbd_ram : List (List String)
  merged_reg : Option (List Nat)
  merged_mem : Option (List Nat)
deriving DecidableEq, Repr

/-- The per-index body of the snapshot loop in _take_full_patch_snapshot. -/
def patchRecordAt (piu : PiuState) (param : Params) (pchidx : Nat) : PatchRecord :=
  { pchidx := pchidx
    row := pchidx / param.num_pchcol
    col := pchidx % param.num_pchcol
    pchtype := piu.pchinfo_static_ram.getD pchidx none
    merged :=
      { reg := match piu.merged_reg with
               | some ram => ram.getD pchidx 0
               | none => 0
        mem := match piu.merged_mem with
               | some ram => ram.getD pchidx 0
               | none => 0 }
    facebd := formatFacebd (piu.facebd_ram.getD pchidx [])
    cornerbd := formatCornerbd (piu.cornerbd_ram.getD pchidx []) }

/-- A full snapshot of all patches, used to compute deltas. -/
structure PatchSnapshot where
  patches : List PatchRecord
deriving DecidableEq, Repr

/-- Embedding of _take_full_patch_snapshot: one record per patch index in
the range 0 .. num_pch - 1. -/
def takeFullPatchSnapshot (piu : PiuState) (param : Params) : PatchSnapshot :=
  { patches := (List.range param.num_pch).map (patchRecordAt piu param) }

/-- Embedding of _diff_patch_snapshots: pair records positionally and
keep the current record whenever the full record differs. -/
def diffPatchSnapshots (prev cur : PatchSnapshot) : List PatchRecord :=
  (prev.patches.zip cur.patches).filterMap
    (fun pc => if pc.1 ≠ pc.2 then some pc.2 else none)

/-- Index-form restatement of the delta, following the claim wording:
for each index in order, keep the current record exactly when it differs
from the same-index previous record. -/
def diffIndexForm {α : Type} [DecidableEq α] (P C : List α) : List α :=
  (List.range C.length).filterMap (fun i =>
    (P.get? i).bind (fun p => (C.get? i).bind (fun c =>
      if p ≠ c then some c else none)))

theorem diffIndexForm_cons {α : Type} [DecidableEq α] (p c : α) (P C : List α) :
    diffIndexForm (p :: P) (c :: C)
      = (if p ≠ c then [c] else []) ++ diffIndexForm P C := by
  have hr : List.range (C.length + 1) = 0 :: (List.range C.length).map (· + 1) :=
    List.range_succ_eq_map _
  unfold diffIndexForm
  simp only [List.length_cons, hr, List.filterMap_cons, List.filterMap_map,
    List.get?_cons_zero, Option.some_bind]
  have hfun : ((fun i =>
        ((p :: P).get? i).bind (fun a => ((c :: C).get? i).bind (fun b =>
          if a ≠ b then some b else none))) ∘ (· + 1))
      = (fun i =>
        (P.get? i).bind (fun a => (C.get? i).bind (fun b =>
          if a ≠ b then some b else none))) := by
    funext i
    simp [Function.comp]
  rw [hfun]
  by_cases hpc : p = c
  · subst hpc
    simp
  · simp [hpc]

theorem diffList_range_eq {α : Type} [DecidableEq α] :
    ∀ (P C : List α), P.length = C.length →
      (P.zip C).filterMap (fun pc => if pc.1 ≠ pc.2 then some pc.2 else none)
        = diffIndexForm P C := by
  intro P
  induction P with
  | nil =>
    intro C h
    cases C with
    | nil => simp [diffIndexForm]
    | cons c C => simp at h
  | cons p P ih =>
    intro C h
    cases C with
    | nil => simp at h
    | cons c C =>
      have hlen : P.length = C.length := by
        simpa using h
      rw [List.zip_cons_cons, List.filterMap_cons, diffIndexForm_cons, ih C hlen]
      by_cases hpc : p = c
      · subst hpc
        simp
      · simp [hpc]

theorem diffList_self_eq_nil {α : Type} [DecidableEq α] (l : List α) :
    (l.zip l).filterMap (fun pc => if pc.1 ≠ pc.2 then some pc.2 else none) = [] := by
  induction l with
  | nil => simp
  | cons x xs ih => simpa using ih

/-- C3: for equal-length snapshots, the delta is exactly the list, in
index order, of current records that differ from their same-index
counterpart in the previous snapshot; and every snapshot diffed against
itself yields the empty delta. -/
theorem c3_diff_patch_snapshots_exact (P C : PatchSnapshot) :
    (P.patches.length = C.patches.length →
      diffPatchSnapshots P C = diffIndexForm P.patches C.patches)
    ∧ diffPatchSnapshots C C = [] := by
  constructor
  · intro h
    unfold diffPatchSnapshots
    exact diffList_range_eq P.patches C.patches h
  · unfold diffPatchSnapshots
    exact diffList_self_eq_nil C.patches

/-- C7: the snapshot covers every patch index (one record per index in
range, never aborting), and each individually unreadable field degrades
to its placeholder: a missing pchtype key yields none, an absent
merged_reg / merged_mem attribute yields 0, and a boundary list of the
wrong length yields the all-empty boundary record. -/
theorem c7_snapshot_degrades_not_aborts (piu : PiuState) (param : Params) :
    (takeFullPatchSnapshot piu param).patches.length = param.num_pch
    ∧ (∀ i, i < param.num_pch →
        (takeFullPatchSnapshot piu param).patches[i]?
          = some (patchRecordAt piu param i))
    ∧ (∀ i, piu.pchinfo_static_ram.getD i none = none →
        (patchRecordAt piu param i).pchtype = none)
    ∧ (piu.merged_reg = none → ∀ i, (patchRecordAt piu param i).merged.reg = 0)
    ∧ (piu.merged_mem = none → ∀ i, (patchRecordAt piu param i).merged.mem = 0)
    ∧ (∀ i, (piu.facebd_ram.getD i []).length ≠ 4 →
        (patchRecordAt piu param i).facebd = { w := "", n := "", e := "", s := "" })
    ∧ (∀ i, (piu.cornerbd_ram.getD i []).length ≠ 4 →
        (patchRecordAt piu param i).cornerbd
          = { nw := "", ne := "", sw := "", se := "" }) := by
  refine ⟨?_, ?_, ?_, ?_, ?_, ?_, ?_⟩
  · simp [takeFullPatchSnapshot]
  · intro i hi
    simp only [takeFullPatchSnapshot, List.getElem?_map, List.getElem?_range hi]
    rfl
  · intro i h
    simp only [patchRecordAt]
    exact h
  · intro h i
    simp [patchRecordAt, h]
  · intro h i
    simp [patchRecordAt, h]
  · intro i h
    simp only [patchRecordAt, formatFacebd, if_neg h]
  · intro i h
    simp only [patchRecordAt, formatCornerbd, if_neg h]

/-! ## Stability oracle (_check_system_stable)

The observable surface the oracle reads is modelled field by field.
Every attribute read goes through _safe_getattr, which returns
(value, observable); an Option with none models an attribute path that
is absent or raises.  For the two-level buffer reads the nesting is:
outer none = the buffer attribute itself unobservable, some none = the
attribute observed but its value is None, some (some x) = a buffer
object whose inner attribute read is again an Option. -/

/-- Metadata accumulator of one trace invocation (dataclass
TraceMetadata).  Forced-termination entries carry the unit, cycle and
reason; the debug unit-state payload attached in the source is not part
of any verified property and is left out of the record. -/
structure StabilityFailure where
  cycle : Nat
  unobservable_conditions : List String
deriving DecidableEq, Repr

structure ForcedTermination where
  unit : String
  cycle : Nat
  reason : String
deriving DecidableEq, Repr

structure TraceMetadata where
  forced_terminations : List ForcedTermination := []
  cleanup_failed : Bool := false
  cleanup_errors : List String := []
  warnings : List String := []
  stability_check_failures : List StabilityFailure := []
deriving DecidableEq, Repr

/-- The stability-relevant observable state across the simulator
subunits, as read by _check_system_stable. -/
structure StabilityView where
  qif_all_fetched : Option Bool
  qid_to_pchdec_buf : Option (Option (Option Bool))
  qid_to_lqmeas_buf : Option (Option (Option Bool))
  pdu_state : Option (Option String)
  piu_state : Option (Option String)
  piu_output_topsu_valid : Option Bool
  piu_output_tolmu_valid : Option Bool
  psu_state : Option (Option String)
  psu_pchinfo_srmem : Option (Option (Option Bool))
  tcu_output_timebuf_empty : Option Bool
  pfu_state : Option (Option String)
  lmu_instinfo_valid : Option Bool
  lmu_done : Option Bool
  qxu_dq_meas_mem : Option Bool
  qxu_aq_meas_mem : Option Bool
deriving DecidableEq, Repr

/-- The fixed, ordered condition list of _check_system_stable: each entry
is (name, (value, observable)). -/
def stabilityConditions (v : StabilityView) : List (String × Bool × Bool) :=
  [ ("qif_all_fetched",
      match v.qif_all_fetched with
      | some b => (b, true)
      | none => (false, false)),
    ("qid_pchdec_empty",
      match v.qid_to_pchdec_buf with
      | some (some (some e)) => (e, true)
      | some (some none) => (false, false)
      | some none => (false, false)
      | none => (false, false)),
    ("qid_lqmeas_empty",
      match v.qid_to_lqmeas_buf with
      | some (some (some e)) => (e, true)
      | some (some none) => (false, false)
      | some none => (false, false)
      | none => (false, false)),
    ("pdu_empty",
      match v.pdu_state with
      | some st => (decide (st = some "empty"), true)
      | none => (false, false)),
    ("piu_ready",
      match v.piu_state with
      | some st => (decide (st = some "ready"), true)
      | none => (false, false)),
    ("piu_no_topsu_valid",
      match v.piu_output_topsu_valid with
      | some b => (!b, true)
      | none => (false, false)),
    ("piu_no_tolmu_valid",
      match v.piu_output_tolmu_valid with
      | some b => (!b, true)
      | none => (false, false)),
    ("psu_ready",
      match v.psu_state with
      | some st => (decide (st = some "ready"), true)
      | none => (false, false)),
    ("psu_buf_empty",
      match v.psu_pchinfo_srmem with
      | some (some (some notempty)) => (!notempty, true)
      | some (some none) => (false, false)
      | some none => (false, false)
      | none => (false, false)),
    ("tcu_empty",
      match v.tcu_output_timebuf_empty with
      | some b => (b, true)
      | none => (false, false)),
    ("pfu_ready",
      match v.pfu_state with
      | some st => (decide (st = some "ready"), true)
      | none => (false, false)),
    ("lmu_no_instinfo_valid",
      match v.lmu_instinfo_valid with
      | some b => (!b, true)
      | none => (false, false)),
    ("lmu_done",
      match v.lmu_done with
      | some b => (b, true)
      | none => (false, false)),
    ("qxu_meas_mem_empty",
      (!((v.qxu_dq_meas_mem.getD false) || (v.qxu_aq_meas_mem.getD false)),
       v.qxu_dq_meas_mem.isSome && v.qxu_aq_meas_mem.isSome)) ]

/-- Embedding of _check_system_stable as the code is written.  Line 458
builds the dict of unobservable conditions with the comprehension whose
value expression is the undefined name v (the items unpack as
k, (val, obs), binding no v anywhere in the function, module or
builtins).  The value expression is only evaluated for items passing the
not-observable filter, so when every condition is observable the
comprehension yields the empty dict, the append at line 460 is skipped
and the function returns the conjunction of all values with all
observabilities; but the moment any condition is unobservable the
comprehension raises NameError, so the append to
stability_check_failures is unreachable (the cycle parameter would only
be read on that dead path). -/
def checkSystemStable (view : StabilityView) (cycle : Nat)
    (trace_meta : TraceMetadata) : Except PyError (Bool × TraceMetadata) :=
  let conds := stabilityConditions view
  if ((conds.filter (fun c => !c.2.2)).isEmpty) then
    .ok (conds.all (fun c => c.2.1) && conds.all (fun c => c.2.2), trace_meta)
  else
    .error (PyError.nameError "v")

/-! ## Execution driver (trace_patches_from_qasm cycle loop)

The wrapped simulator is an external collaborator (XQ-simulator is not
part of this repository).  Modelled from the spec: the simulator is
cycle-stepped through ordered transfer / update / tick phases with a
readable cycle counter that advances by one per tick; the per-cycle
signals the interface layer reads after the transfer phase (PIU
take_input, input_stall, input_opcode, the PIU patch state, and the
wall-clock reading sampled by the periodic timeout check) are collected
in one observation per simulated cycle.  A trace script lists the
observations of the cycles executed while sim_done is false; the script
ending models sim_done turning true. -/

structure CycleObs where
  elapsed : Nat
  take_input : Bool
  input_stall : Bool
  input_opcode : Option String
  piu : PiuState
deriving DecidableEq, Repr

/-- The structurally significant instruction kinds (EVENT_INSTS). -/
def EVENT_INSTS : List String := ["PREP_INFO", "MERGE_INFO", "SPLIT_INFO"]

/-- Embedding of _opcode_to_inst_name: a dict literal keyed by the param
opcode attributes; in a Python dict literal a later duplicate key
overwrites an earlier one, hence lookup of the last matching pair. -/
def opcodeToInstName (param : Params) (opcode_bits : Option String) : Option String :=
  match opcode_bits with
  | none => none
  | some ob =>
    let mapping : List (Option String × String) :=
      [ (param.PREP_INFO_opcode, "PREP_INFO"),
        (param.MERGE_INFO_opcode, "MERGE_INFO"),
        (param.SPLIT_INFO_opcode, "SPLIT_INFO"),
        (param.LQI_opcode, "LQI"),
        (param.RUN_ESM_opcode, "RUN_ESM"),
        (param.INIT_INTMD_opcode, "INIT_INTMD"),
        (param.MEAS_INTMD_opcode, "MEAS_INTMD"),
        (param.PPM_INTERPRET_opcode, "PPM_INTERPRET"),
        (param.LQM_X_opcode, "LQM_X"),
        (param.LQM_Y_opcode, "LQM_Y"),
        (param.LQM_Z_opcode, "LQM_Z"),
        (param.LQM_FB_opcode, "LQM_FB") ]
    (mapping.reverse.find? (fun kv => decide (kv.1 = some ob))).map (fun kv => kv.2)

/-- Whether the instruction accepted this cycle maps to a structurally
significant kind. -/
def significantInst (param : Params) (opcode_bits : Option String) : Bool :=
  match opcodeToInstName param opcode_bits with
  | some inst_name => decide (inst_name ∈ EVENT_INSTS)
  | none => false

structure Event where
  seq : Nat
  cycle : Nat
  qisa_idx : Nat
  inst : String
  patch_delta : List PatchRecord
deriving DecidableEq, Repr

structure LoopState where
  cycle : Nat
  prev_snapshot : PatchSnapshot
  events : List Event
  accepted_inst_count : Nat
  termination_reason : String
  trace_meta : TraceMetadata
deriving DecidableEq, Repr

structure DriverCfg where
  max_cycles : Nat := 10000000
  timeout_seconds : Option Nat := none
deriving DecidableEq, Repr

/-- The error raised when the wall-clock ceiling is observed exceeded
(raise TimeoutError in the source). -/
structure TimeoutRaised where
  elapsed_seconds : Nat
  cycle : Nat
deriving DecidableEq, Repr

def timeout_check_interval : Nat := 100

/-- Whether the periodic wall-clock check fires this iteration: a
timeout is configured, the cycle counter is at a check interval, and the
elapsed wall time strictly exceeds the ceiling. -/
def timeoutFires (cfg : DriverCfg) (s : LoopState) (obs : CycleObs) : Bool :=
  match cfg.timeout_seconds with
  | some t => (s.cycle % timeout_check_interval == 0) && decide (obs.elapsed > t)
  | none => false

/-- The acceptance / event-recording block executed after the transfer
phase of each cycle (lines of trace_patches_from_qasm following
run_cycle_transfer). -/
def recordStep (param : Params) (s : LoopState) (obs : CycleObs) : LoopState :=
  let accepted := obs.take_input && !obs.input_stall
  if accepted then
    let qisa_idx := s.accepted_inst_count
    let s1 := { s with accepted_inst_count := s.accepted_inst_count + 1 }
    match opcodeToInstName param obs.input_opcode with
    | some inst_name =>
      if inst_name ∈ EVENT_INSTS then
        let cur_snapshot := takeFullPatchSnapshot obs.piu param
        let patch_delta := diffPatchSnapshots s.prev_snapshot cur_snapshot
        let s2 := { s1 with prev_snapshot := cur_snapshot }
        if patch_delta ≠ [] then
          { s2 with events := s2.events ++
              [{ seq := s2.events.length, cycle := s.cycle, qisa_idx := qisa_idx,
                 inst := inst_name, patch_delta := patch_delta }] }
        else s2
      else s1
    | none => s1
  else s

/-- Modelled from the spec: run_cycle_update and run_cycle_tick advance
the simulator one cycle, incrementing the readable cycle counter. -/
def tickPhase (s : LoopState) : LoopState :=
  { s with cycle := s.cycle + 1 }

/-- The max_cycles break: tag the reason, append the warning and the
global forced-termination entry, and stop (partial results kept). -/
def maxCyclesBreak (s : LoopState) : LoopState :=
  { s with
    termination_reason := "max_cycles"
    trace_meta := { s.trace_meta with
      warnings := s.trace_meta.warnings
        ++ ["Simulation exceeded max_cycles; terminated early."]
      forced_terminations := s.trace_meta.forced_terminations
        ++ [{ unit := "global", cycle := s.cycle, reason := "max_cycles_exceeded" }] } }

/-- The cycle loop of trace_patches_from_qasm.  A firing timeout check
raises (the source appends a warning and a forced-termination entry to
the local metadata and then raises TimeoutError, so the call produces no
report); the max_cycles guard instead breaks out of the loop with the
partial state. -/
def runLoop (cfg : DriverCfg) (param : Params) :
    LoopState → List CycleObs → Except TimeoutRaised LoopState
  | s, [] => .ok s
  | s, obs :: rest =>
    if timeoutFires cfg s obs then
      .error { elapsed_seconds := obs.elapsed, cycle := s.cycle }
    else
      let s2 := tickPhase (recordStep param s obs)
      if s2.cycle > cfg.max_cycles then
        .ok (maxCyclesBreak s2)
      else
        runLoop cfg param s2 rest

/-- The patch-trace portion of the response built by
trace_patches_from_qasm (meta fields owned by the driver, the initial
snapshot and the event list; the compiled-artifact echo fields that come
from the out-of-scope compiler are not modelled). -/
structure TraceReport where
  termination_reason : String
  total_cycles : Nat
  initial : List PatchRecord
  events : List Event
  forced_terminations : List ForcedTermination
  stability_check_failures : List StabilityFailure
  warnings : List String
deriving DecidableEq, Repr

def finalizeReport (initial : PatchSnapshot) (s : LoopState) : TraceReport :=
  { termination_reason := s.termination_reason
    total_cycles := s.cycle
    initial := initial.patches
    events := s.events
    forced_terminations := s.trace_meta.forced_terminations
    stability_check_failures := s.trace_meta.stability_check_failures.take 10
    warnings := s.trace_meta.warnings }

def initialLoopState (initial : PatchSnapshot) : LoopState :=
  { cycle := 0
    prev_snapshot := initial
    events := []
    accepted_inst_count := 0
    termination_reason := "normal"
    trace_meta := {} }

/-- Embedding of the driver part of trace_patches_from_qasm: take the
initial snapshot, run the cycle loop, and build the report; a raised
TimeoutError propagates to the caller instead of producing a report. -/
def runDriver (cfg : DriverCfg) (param : Params) (piu0 : PiuState)
    (script : List CycleObs) : Except TimeoutRaised TraceReport :=
  let initial := takeFullPatchSnapshot piu0 param
  (runLoop cfg param (initialLoopState initial) script).map (finalizeReport initial)

theorem recordStep_cycle_eq (param : Params) (s : LoopState) (obs : CycleObs) :
    (recordStep param s obs).cycle = s.cycle
    ∧ (recordStep param s obs).termination_reason = s.termination_reason := by
  by_cases hacc : (obs.take_input && !obs.input_stall) = true
  · cases hop : opcodeToInstName param obs.input_opcode with
    | none => simp [recordStep, hacc, hop]
    | some inst_name =>
      by_cases hmem : inst_name ∈ EVENT_INSTS
      · by_cases hd : diffPatchSnapshots s.prev_snapshot
            (takeFullPatchSnapshot obs.piu param) ≠ []
        · simp [recordStep, hacc, hop, hmem, hd]
        · simp [recordStep, hacc, hop, hmem, hd]
      · simp [recordStep, hacc, hop, hmem]
  · simp [recordStep, hacc]

theorem recordStep_events_shape (param : Params) (s : LoopState) (obs : CycleObs) :
    (recordStep param s obs).events = s.events
    ∨ ∃ inst_name patch_delta, patch_delta ≠ []
        ∧ (recordStep param s obs).events
            = s.events ++ [{ seq := s.events.length,
                             cycle := s.cycle,
                             qisa_idx := s.accepted_inst_count,
                             inst := inst_name,
                             patch_delta := patch_delta }] := by
  by_cases hacc : (obs.take_input && !obs.input_stall) = true
  · cases hop : opcodeToInstName param obs.input_opcode with
    | none => left; simp [recordStep, hacc, hop]
    | some inst_name =>
      by_cases hmem : inst_name ∈ EVENT_INSTS
      · by_cases hd : diffPatchSnapshots s.prev_snapshot
            (takeFullPatchSnapshot obs.piu param) ≠ []
        · right
          refine ⟨inst_name,
            diffPatchSnapshots s.prev_snapshot (takeFullPatchSnapshot obs.piu param),
            hd, ?_⟩
          simp [recordStep, hacc, hop, hmem, hd]
        · left
          simp [recordStep, hacc, hop, hmem, hd]
      · left
        simp [recordStep, hacc, hop, hmem]
  · left
    simp [recordStep, hacc]

/-- Event-stream invariant: sequence numbers are exactly the positions,
cycles are strictly increasing, and all recorded cycles precede the
current counter. -/
def EventInv (s : LoopState) : Prop :=
  s.events.map Event.seq = List.range s.events.length
  ∧ List.Chain' (· < ·) (s.events.map Event.cycle)
  ∧ ∀ e ∈ s.events, e.cycle < s.cycle

theorem step_preserves_EventInv (param : Params) (s : LoopState) (obs : CycleObs)
    (h : EventInv s) : EventInv (tickPhase (recordStep param s obs)) := by
  obtain ⟨hseq, hchain, hbound⟩ := h
  have hcyc := (recordStep_cycle_eq param s obs).1
  rcases recordStep_events_shape param s obs with hsame | ⟨inst_name, patch_delta, _, happ⟩
  · refine ⟨?_, ?_, ?_⟩
    · simpa [tickPhase, hsame] using hseq
    · simpa [tickPhase, hsame] using hchain
    · intro e he
      have hc2 : (tickPhase (recordStep param s obs)).cycle = s.cycle + 1 := by
        simp [tickPhase, hcyc]
      have hev : (tickPhase (recordStep param s obs)).events = s.events := by
        simp [tickPhase, hsame]
      rw [hev] at he
      have := hbound e he
      rw [hc2]
      omega
  · refine ⟨?_, ?_, ?_⟩
    · simp only [tickPhase, happ, List.map_append, List.length_append, List.map_cons,
        List.map_nil, List.length_cons, List.length_nil]
      rw [hseq]
      have : s.events.length + (0 + 1) = s.events.length + 1 := by omega
      rw [this, List.range_succ]
    · simp only [tickPhase, happ, List.map_append, List.map_cons, List.map_nil]
      rw [List.chain'_append]
      refine ⟨hchain, List.chain'_singleton _, ?_⟩
      intro x hx y hy
      simp only [List.head?_cons, Option.mem_def, Option.some.injEq] at hy
      subst hy
      have hxmem : x ∈ s.events.map Event.cycle := by
        rcases List.mem_of_mem_getLast? hx with hmem
        exact hmem
      rcases List.mem_map.mp hxmem with ⟨e, he, hxe⟩
      subst hxe
      exact hbound e he
    · intro e he
      have hc2 : (tickPhase (recordStep param s obs)).cycle = s.cycle + 1 := by
        simp [tickPhase, hcyc]
      have hev : (tickPhase (recordStep param s obs)).events
          = (recordStep param s obs).events := by
        simp [tickPhase]
      rw [hev, happ, List.mem_append] at he
      rw [hc2]
      rcases he with he | he
      · have := hbound e he
        omega
      · simp only [List.mem_singleton] at he
        subst he
        simp

theorem maxCyclesBreak_preserves_EventInv (s : LoopState) (h : EventInv s) :
    EventInv (maxCyclesBreak s) := by
  obtain ⟨hseq, hchain, hbound⟩ := h
  exact ⟨hseq, hchain, hbound⟩

theorem runLoop_EventInv (cfg : DriverCfg) (param : Params) :
    ∀ (script : List CycleObs) (s : LoopState), EventInv s →
      ∀ r, runLoop cfg param s script = .ok r → EventInv r := by
  intro script
  induction script with
  | nil =>
    intro s hs r hr
    simp only [runLoop] at hr
    cases hr
    exact hs
  | cons obs rest ih =>
    intro s hs r hr
    simp only [runLoop] at hr
    by_cases htf : timeoutFires cfg s obs = true
    · rw [if_pos htf] at hr
      cases hr
    · rw [if_neg htf] at hr
      have hs2 := step_preserves_EventInv param s obs hs
      by_cases hmax : (tickPhase (recordStep param s obs)).cycle > cfg.max_cycles
      · rw [if_pos hmax] at hr
        cases hr
        exact maxCyclesBreak_preserves_EventInv _ hs2
      · rw [if_neg hmax] at hr
        exact ih _ hs2 r hr

/-- C4: every report produced by the driver carries events whose
sequence numbers are exactly 0 .. len(events) - 1 in emission order and
whose cycle fields are strictly increasing across consecutive events. -/
theorem c4_event_ordering (cfg : DriverCfg) (param : Params) (piu0 : PiuState)
    (script : List CycleObs) (r : TraceReport)
    (h : runDriver cfg param piu0 script = .ok r) :
    r.events.map Event.seq = List.range r.events.length
    ∧ List.Chain' (· < ·) (r.events.map Event.cycle) := by
  simp only [runDriver] at h
  cases hrl : runLoop cfg param
      (initialLoopState (takeFullPatchSnapshot piu0 param)) script with
  | error e =>
    rw [hrl] at h
    simp [Except.map] at h
  | ok sfin =>
    rw [hrl] at h
    simp only [Except.map, Except.ok.injEq] at h
    have hinv0 : EventInv (initialLoopState (takeFullPatchSnapshot piu0 param)) := by
      refine ⟨?_, ?_, ?_⟩ <;> simp [initialLoopState]
    have hinv := runLoop_EventInv cfg param script _ hinv0 sfin hrl
    obtain ⟨hseq, hchain, _⟩ := hinv
    subst h
    exact ⟨by simpa [finalizeReport] using hseq, by simpa [finalizeReport] using hchain⟩

/-- C5: the per-cycle recorder decides acceptance as take_input AND NOT
input_stall (a non-accepted cycle leaves the state untouched, an
accepted one advances the instruction counter); a snapshot and diff are
taken only for structurally significant kinds (a non-significant
accepted instruction changes neither events nor prev); and at a
significant instruction prev is always advanced to the new snapshot,
even when the delta is empty, an event being appended exactly when the
delta against the previous snapshot is non-empty. -/
theorem c5_event_recorder (param : Params) (s : LoopState) (obs : CycleObs) :
    ((obs.take_input && !obs.input_stall) = false → recordStep param s obs = s)
    ∧ ((obs.take_input && !obs.input_stall) = true →
        (recordStep param s obs).accepted_inst_count = s.accepted_inst_count + 1)
    ∧ ((obs.take_input && !obs.input_stall) = true →
        significantInst param obs.input_opcode = false →
        (recordStep param s obs).prev_snapshot = s.prev_snapshot
        ∧ (recordStep param s obs).events = s.events)
    ∧ ((obs.take_input && !obs.input_stall) = true →
        significantInst param obs.input_opcode = true →
        (recordStep param s obs).prev_snapshot = takeFullPatchSnapshot obs.piu param
        ∧ (recordStep param s obs).events =
            (if diffPatchSnapshots s.prev_snapshot (takeFullPatchSnapshot obs.piu param) = []
             then s.events
             else s.events ++ [{ seq := s.events.length,
                                 cycle := s.cycle,
                                 qisa_idx := s.accepted_inst_count,
                                 inst := (opcodeToInstName param obs.input_opcode).getD "",
                                 patch_delta := diffPatchSnapshots s.prev_snapshot
                                   (takeFullPatchSnapshot obs.piu param) }])) := by
  refine ⟨?_, ?_, ?_, ?_⟩
  · intro hacc
    simp [recordStep, hacc]
  · intro hacc
    cases hop : opcodeToInstName param obs.input_opcode with
    | none => simp [recordStep, hacc, hop]
    | some inst_name =>
      by_cases hmem : inst_name ∈ EVENT_INSTS
      · by_cases hd : diffPatchSnapshots s.prev_snapshot
            (takeFullPatchSnapshot obs.piu param) ≠ []
        · simp [recordStep, hacc, hop, hmem, hd]
        · simp [recordStep, hacc, hop, hmem, hd]
      · simp [recordStep, hacc, hop, hmem]
  · intro hacc hsig
    cases hop : opcodeToInstName param obs.input_opcode with
    | none => simp [recordStep, hacc, hop]
    | some inst_name =>
      have hmem : inst_name ∉ EVENT_INSTS := by
        simp only [significantInst, hop] at hsig
        intro hmem
        rw [decide_eq_true hmem] at hsig
        exact absurd hsig (by simp)
      simp [recordStep, hacc, hop, hmem]
  · intro hacc hsig
    cases hop : opcodeToInstName param obs.input_opcode with
    | none => simp [significantInst, hop] at hsig
    | some inst_name =>
      have hmem : inst_name ∈ EVENT_INSTS := by
        simp only [significantInst, hop] at hsig
        exact of_decide_eq_true hsig
      by_cases hd : diffPatchSnapshots s.prev_snapshot
          (takeFullPatchSnapshot obs.piu param) ≠ []
      · rw [if_neg hd]
        constructor
        · simp [recordStep, hacc, hop, hmem, hd]
        · simp [recordStep, hacc, hop, hmem, hd]
      · rw [not_not] at hd
        rw [if_pos hd]
        constructor
        · simp [recordStep, hacc, hop, hmem, hd]
        · simp [recordStep, hacc, hop, hmem, hd]

theorem runLoop_termination_reason (cfg : DriverCfg) (param : Params) :
    ∀ (script : List CycleObs) (s : LoopState) (r : LoopState),
      runLoop cfg param s script = .ok r →
      r.termination_reason = s.termination_reason
      ∨ r.termination_reason = "max_cycles" := by
  intro script
  induction script with
  | nil =>
    intro s r hr
    simp only [runLoop] at hr
    cases hr
    left; rfl
  | cons obs rest ih =>
    intro s r hr
    simp only [runLoop] at hr
    by_cases htf : timeoutFires cfg s obs = true
    · rw [if_pos htf] at hr
      cases hr
    · rw [if_neg htf] at hr
      by_cases hmax : (tickPhase (recordStep param s obs)).cycle > cfg.max_cycles
      · rw [if_pos hmax] at hr
        cases hr
        right
        rfl
      · rw [if_neg hmax] at hr
        rcases ih _ r hr with hsame | hmaxr
        · left
          rw [hsame]
          have : (tickPhase (recordStep param s obs)).termination_reason
              = (recordStep param s obs).termination_reason := rfl
          rw [this, (recordStep_cycle_eq param s obs).2]
        · right
          exact hmaxr

/-- C1 (amended): when the cycle ceiling is exceeded mid-trace the loop
stops and returns the best-effort partial state tagged max_cycles, with
all captured events preserved; when the periodic wall-clock check sees
the timeout ceiling exceeded the loop instead raises (returns an error,
producing no report); and no report ever carries a timeout tag: every
returned report is tagged either normal or max_cycles. -/
theorem c1_ceiling_semantics :
    (∀ (cfg : DriverCfg) (param : Params) (s : LoopState) (obs : CycleObs)
        (rest : List CycleObs),
      timeoutFires cfg s obs = true →
        runLoop cfg param s (obs :: rest)
          = .error { elapsed_seconds := obs.elapsed, cycle := s.cycle })
    ∧ (∀ (cfg : DriverCfg) (param : Params) (s : LoopState) (obs : CycleObs)
        (rest : List CycleObs),
      timeoutFires cfg s obs = false →
      (tickPhase (recordStep param s obs)).cycle > cfg.max_cycles →
        runLoop cfg param s (obs :: rest)
          = .ok (maxCyclesBreak (tickPhase (recordStep param s obs))))
    ∧ (∀ s : LoopState, (maxCyclesBreak s).termination_reason = "max_cycles"
        ∧ (maxCyclesBreak s).events = s.events)
    ∧ (∀ (cfg : DriverCfg) (param : Params) (piu0 : PiuState)
        (script : List CycleObs) (r : TraceReport),
      runDriver cfg param piu0 script = .ok r →
        r.termination_reason = "normal" ∨ r.termination_reason = "max_cycles") := by
  refine ⟨?_, ?_, ?_, ?_⟩
  · intro cfg param s obs rest htf
    simp only [runLoop, htf, if_true]
  · intro cfg param s obs rest htf hmax
    simp only [runLoop, htf, Bool.false_eq_true, if_false, if_pos hmax]
  · intro s
    exact ⟨rfl, rfl⟩
  · intro cfg param piu0 script r h
    simp only [runDriver] at h
    cases hrl : runLoop cfg param
        (initialLoopState (takeFullPatchSnapshot piu0 param)) script with
    | error e =>
      rw [hrl] at h
      simp [Except.map] at h
    | ok sfin =>
      rw [hrl] at h
      simp only [Except.map, Except.ok.injEq] at h
      subst h
      have := runLoop_termination_reason cfg param script _ sfin hrl
      simpa [finalizeReport, initialLoopState] using this

/-! ## Escape interceptor (_intercept_sys_exit)

The process-wide sys.exit binding is modelled as a one-field process
state; the context-manager body is an arbitrary function of that state
whose outcome can be a normal return, an exception, or a cancellation
(the three exit paths of the with-block).  The try/finally of the
source restores the binding captured at entry regardless of the
outcome of the body. -/

inductive ExitPrim where
  | original
  | intercepted
deriving DecidableEq, Repr

structure ProcState where
  sysExit : ExitPrim
deriving DecidableEq, Repr

/-- The record the interceptor keeps about an attempted exit. -/
structure ExitInfo where
  called : Bool
  code : Option Int
deriving DecidableEq, Repr

/-- The structured, catchable error the replacement primitive raises
(RuntimeError in the source), carrying the attempted exit code both in
its message text and, in the model, as a field. -/
structure SimExitError where
  message : String
  exit_code : Option Int
deriving DecidableEq, Repr

/-- Embedding of _intercepted_exit: record the call and raise a
RuntimeError describing the attempted exit code. -/
def interceptedExit (code : Option Int) : ExitInfo × SimExitError :=
  ({ called := true, code := code },
   { message := "XQsim simulation error: sys.exit() was called by the simulator. "
       ++ "This typically occurs when there is an invalid patch Pauli product "
       ++ "(pchpp) configuration. Exit code: " ++ toString code
     exit_code := code })

/-- One of the three ways the guarded region can exit. -/
inductive BodyOutcome where
  | normal
  | exception (msg : String)
  | cancelled
deriving DecidableEq, Repr

/-- Embedding of the _intercept_sys_exit context manager: swap in the
intercepted primitive, run the body, and restore the primitive captured
at entry on the way out (the try/finally runs on every exit path). -/
def interceptSysExit (body : ProcState → BodyOutcome × ProcState)
    (s : ProcState) : BodyOutcome × ProcState :=
  let original_exit := s.sysExit
  let res := body { s with sysExit := .intercepted }
  (res.1, { res.2 with sysExit := original_exit })

/-- C8: the guarded region runs with the abrupt-exit primitive replaced
by the interceptor, the replacement raises a structured error carrying
the attempted exit code, and whatever the body outcome is (normal
return, exception, or cancellation) the primitive captured at entry is
restored. -/
theorem c8_intercept_sys_exit
    (body : ProcState → BodyOutcome × ProcState) (s : ProcState) :
    ((interceptSysExit body s).2.sysExit = s.sysExit)
    ∧ ((interceptSysExit body s).1
        = (body { s with sysExit := .intercepted }).1)
    ∧ (∀ code : Option Int, (interceptedExit code).2.exit_code = code
        ∧ (interceptedExit code).1.called = true) :=
  ⟨rfl, rfl, fun _ => ⟨rfl, rfl⟩⟩

/-! ## Serialization gate (/trace endpoint of api_server.py)

The endpoint is modelled over abstract request and collaborator
outcomes: whether the qasm field is empty, the result of the QASM parse
and circuit-limit validation (an error maps to HTTP 400), the outcome
of the backend call, and whether the post-call elapsed check exceeds
the timeout.  The module-level lock and in-progress flag form the
server state; a non-blocking acquire is a plain check of the held
flag. -/

structure ServerState where
  trace_lock_held : Bool
  trace_in_progress : Bool
deriving DecidableEq, Repr

/-- Possible outcomes of the trace_patches_from_qasm call as seen by the
endpoint handler. -/
inductive BackendOutcome where
  | ok (report : TraceReport)
  | timeoutError (msg : String)
  | runtimeError (msg : String)
  | fileNotFound (msg : String)
  | unexpected (ty : String) (msg : String)
deriving DecidableEq, Repr

inductive HttpResult where
  | ok (report : TraceReport)
  | httpError (status : Nat) (detail : String)
deriving DecidableEq, Repr

/-- Embedding of the /trace endpoint: empty-qasm check, non-blocking
lock acquire answered with 429 when already held, then the guarded body
whose every path (success, validation failure, timeout, simulation
error, unexpected exception) runs the finally block that resets the
in-progress flag and releases the lock. -/
def traceEndpoint (st : ServerState) (qasm_empty : Bool)
    (validation : Except String Unit) (backend : BackendOutcome)
    (elapsed_exceeds : Bool) : HttpResult × ServerState :=
  if qasm_empty then
    (.httpError 400 "qasm is empty", st)
  else if st.trace_lock_held then
    (.httpError 429 "Another trace operation is in progress. Please try again later.",
     st)
  else
    let result : HttpResult :=
      match validation with
      | .error detail => .httpError 400 detail
      | .ok _ =>
        match backend with
        | .ok report =>
          if elapsed_exceeds then
            .httpError 504 "Trace operation timed out"
          else
            .ok report
        | .timeoutError msg => .httpError 504 ("Trace timeout: " ++ msg)
        | .runtimeError msg => .httpError 400 ("Simulation error: " ++ msg)
        | .fileNotFound msg => .httpError 400 msg
        | .unexpected ty msg => .httpError 500 (ty ++ ": " ++ msg)
    (result, { st with trace_lock_held := false, trace_in_progress := false })

/-- C9: a trace request with a non-empty qasm arriving while the
serialization gate is held is rejected immediately with HTTP 429 and
leaves the server state untouched, neither queued nor blocked. -/
theorem c9_second_trace_rejected (st : ServerState) (qasm_empty : Bool)
    (validation : Except String Unit) (backend : BackendOutcome)
    (elapsed_exceeds : Bool)
    (hheld : st.trace_lock_held = true) (hq : qasm_empty = false) :
    traceEndpoint st qasm_empty validation backend elapsed_exceeds
      = (.httpError 429 "Another trace operation is in progress. Please try again later.",
         st) := by
  simp [traceEndpoint, hq, hheld]

/-- C10: whenever a trace request actually enters the guarded region
(the gate was free and the qasm non-empty), every exit path — success,
validation failure, backend timeout, simulation error, or unexpected
exception — leaves the lock released and the in-progress flag false. -/
theorem c10_lock_released_on_every_path (st : ServerState) (qasm_empty : Bool)
    (validation : Except String Unit) (backend : BackendOutcome)
    (elapsed_exceeds : Bool)
    (hfree : st.trace_lock_held = false) (hq : qasm_empty = false) :
    (traceEndpoint st qasm_empty validation backend elapsed_exceeds).2.trace_lock_held
        = false
    ∧ (traceEndpoint st qasm_empty validation backend
        elapsed_exceeds).2.trace_in_progress = false := by
  simp [traceEndpoint, hq, hfree]

/-! ## Concrete fixtures

Small concrete instances used to evaluate the definitions on explicit
inputs: a 1 x 2 patch grid with a full opcode table, PIU states before
and after a patch-type change, a degraded PIU state with unreadable
fields, and driver / server configurations. -/

def paramS : Params :=
  { num_pch := 2, num_pchcol := 2, num_pchrow := 1,
    PREP_INFO_opcode := some "00000", MERGE_INFO_opcode := some "00001",
    SPLIT_INFO_opcode := some "00010", LQI_opcode := some "00011",
    RUN_ESM_opcode := some "00100", INIT_INTMD_opcode := some "00101",
    MEAS_INTMD_opcode := some "00110", PPM_INTERPRET_opcode := some "00111",
    LQM_X_opcode := some "01000", LQM_Y_opcode := some "01001",
    LQM_Z_opcode := some "01010", LQM_FB_opcode := some "01011" }

def piuA : PiuState :=
  { pchinfo_static_ram := [some "zt", some "mt"],
    facebd_ram := [["x", "z", "x", "z"], ["z", "x", "z", "x"]],
    cornerbd_ram := [["c", "c", "c", "c"], ["c", "c", "c", "c"]],
    merged_reg := some [0, 0], merged_mem := some [0, 0] }

def piuB : PiuState :=
  { piuA with pchinfo_static_ram := [some "zb", some "mt"] }

def piuDegraded : PiuState :=
  { pchinfo_static_ram := [none, some "mt"],
    facebd_ram := [["x", "z"], ["z", "x", "z", "x"]],
    cornerbd_ram := [[], ["c"]],
    merged_reg := none, merged_mem := none }

def viewUnobs : StabilityView :=
  { qif_all_fetched := none,
    qid_to_pchdec_buf := some (some (some true)),
    qid_to_lqmeas_buf := some (some (some true)),
    pdu_state := some (some "empty"),
    piu_state := some (some "ready"),
    piu_output_topsu_valid := some false,
    piu_output_tolmu_valid := some false,
    psu_state := some (some "ready"),
    psu_pchinfo_srmem := some (some (some false)),
    tcu_output_timebuf_empty := some true,
    pfu_state := some (some "ready"),
    lmu_instinfo_valid := some false,
    lmu_done := some true,
    qxu_dq_meas_mem := some false,
    qxu_aq_meas_mem := some false }

def cfgW : DriverCfg := { max_cycles := 1000, timeout_seconds := none }

def cfgTimeoutZero : DriverCfg := { max_cycles := 1000, timeout_seconds := some 0 }

def cfgMaxTiny : DriverCfg := { max_cycles := 0, timeout_seconds := none }

def obsPrep : CycleObs :=
  { elapsed := 0, take_input := true, input_stall := false,
    input_opcode := some "00000", piu := piuB }

def obsMerge : CycleObs :=
  { elapsed := 0, take_input := true, input_stall := false,
    input_opcode := some "00001", piu := piuA }

def obsQuiet : CycleObs :=
  { elapsed := 5, take_input := false, input_stall := false,
    input_opcode := none, piu := piuA }

def stateW : LoopState := initialLoopState (takeFullPatchSnapshot piuA paramS)

def scriptW : List CycleObs := [obsPrep, obsMerge]

def resultW : Except TimeoutRaised TraceReport := runDriver cfgW paramS piuA scriptW

def reportW : TraceReport :=
  match resultW with
  | .ok r => r
  | .error _ =>
    { termination_reason := "", total_cycles := 0, initial := [], events := [],
      forced_terminations := [], stability_check_failures := [], warnings := [] }

def stHeld : ServerState := { trace_lock_held := true, trace_in_progress := true }

def stFree : ServerState := { trace_lock_held := false, trace_in_progress := false }

/-- C1 counterexample: a trace whose wall-clock ceiling (0 seconds) is
observed exceeded mid-trace (elapsed 5 at the first periodic check) does
not return a partial report tagged timeout; the call raises instead. -/
theorem c1_timeout_raises_counterexample :
    cfgTimeoutZero.timeout_seconds = some 0
    ∧ obsQuiet.elapsed > 0
    ∧ runDriver cfgTimeoutZero paramS piuA [obsQuiet]
        = .error { elapsed_seconds := 5, cycle := 0 } := by
  refine ⟨rfl, by decide, ?_⟩
  rfl

theorem c1_witness :
    runLoop cfgTimeoutZero paramS stateW [obsQuiet]
      = .error { elapsed_seconds := 5, cycle := 0 }
    ∧ runLoop cfgMaxTiny paramS stateW [obsQuiet]
      = .ok (maxCyclesBreak (tickPhase (recordStep paramS stateW obsQuiet))) :=
  ⟨c1_ceiling_semantics.1 cfgTimeoutZero paramS stateW obsQuiet [] (by decide),
   c1_ceiling_semantics.2.1 cfgMaxTiny paramS stateW obsQuiet [] (by decide) (by decide)⟩

/-- A view on which every condition is observable and satisfied. -/
def viewAllTrue : StabilityView :=
  { qif_all_fetched := some true,
    qid_to_pchdec_buf := some (some (some true)),
    qid_to_lqmeas_buf := some (some (some true)),
    pdu_state := some (some "empty"),
    piu_state := some (some "ready"),
    piu_output_topsu_valid := some false,
    piu_output_tolmu_valid := some false,
    psu_state := some (some "ready"),
    psu_pchinfo_srmem := some (some (some false)),
    tcu_output_timebuf_empty := some true,
    pfu_state := some (some "ready"),
    lmu_instinfo_valid := some false,
    lmu_done := some true,
    qxu_dq_meas_mem := some false,
    qxu_aq_meas_mem := some false }

/-- C2: the claim states the intended behavior, which the function
docstring also documents (an unobservable condition makes the verdict
false and is recorded), but the code is wrong: the comprehension at line
458 uses the undefined name v as its value expression, so on a view with
an unobservable condition (here qif_all_fetched) the call raises
NameError instead of returning false, and stability_check_failures is
never appended to; with every condition observable the same code does
return the conjunction of the condition values. -/
theorem c2_unobservable_raises_name_error :
    (∃ c ∈ stabilityConditions viewUnobs, c.2.2 = false)
    ∧ checkSystemStable viewUnobs 7 {} = .error (PyError.nameError "v")
    ∧ checkSystemStable viewAllTrue 3 {} = .ok (true, {}) := by
  refine ⟨⟨("qif_all_fetched", (false, false)), by decide, rfl⟩, rfl, rfl⟩

/-- A mapping exercising the success path of the dict rebuild, with a
bool key and an int key that are equal as Python keys (True equals 1),
so the later pair overwrites the value of the earlier one. -/
def goodSample : PyValue :=
  .dict [(.str "a", .tuple [.int 1, .npInt 2]),
         (.bool true, .none),
         (.int 1, .str "x")]

def goodSampleNorm : PyValue :=
  match toJsonSafe goodSample with
  | .ok r => r
  | .error _ => .none

theorem c6_witness :
    isJsonSafe goodSampleNorm = true
    ∧ exceptOk (toJsonSafe goodSample) = true
    ∧ toJsonSafe (PyValue.other "objrepr") = .ok (PyValue.str "objrepr") :=
  ⟨c6_to_json_safe_amended.1 goodSample goodSampleNorm rfl,
   c6_to_json_safe_amended.2.1 goodSample (by decide),
   c6_to_json_safe_amended.2.2 "objrepr"⟩

theorem c3_witness :
    diffPatchSnapshots (takeFullPatchSnapshot piuA paramS)
        (takeFullPatchSnapshot piuB paramS)
      = diffIndexForm (takeFullPatchSnapshot piuA paramS).patches
          (takeFullPatchSnapshot piuB paramS).patches :=
  (c3_diff_patch_snapshots_exact (takeFullPatchSnapshot piuA paramS)
    (takeFullPatchSnapshot piuB paramS)).1 (by decide)

theorem c4_witness :
    reportW.events.map Event.seq = List.range reportW.events.length
    ∧ List.Chain' (· < ·) (reportW.events.map Event.cycle) :=
  c4_event_ordering cfgW paramS piuA scriptW reportW (by rfl)

theorem c5_witness :
    (recordStep paramS stateW obsPrep).accepted_inst_count
        = stateW.accepted_inst_count + 1
    ∧ (recordStep paramS stateW obsPrep).prev_snapshot
        = takeFullPatchSnapshot obsPrep.piu paramS :=
  ⟨(c5_event_recorder paramS stateW obsPrep).2.1 (by decide),
   ((c5_event_recorder paramS stateW obsPrep).2.2.2 (by decide) (by decide)).1⟩

theorem c7_witness :
    (takeFullPatchSnapshot piuDegraded paramS).patches.length = paramS.num_pch
    ∧ (patchRecordAt piuDegraded paramS 0).pchtype = none
    ∧ (patchRecordAt piuDegraded paramS 0).merged.reg = 0
    ∧ (patchRecordAt piuDegraded paramS 0).merged.mem = 0
    ∧ (patchRecordAt piuDegraded paramS 0).facebd
        = { w := "", n := "", e := "", s := "" }
    ∧ (patchRecordAt piuDegraded paramS 0).cornerbd
        = { nw := "", ne := "", sw := "", se := "" } :=
  ⟨(c7_snapshot_degrades_not_aborts piuDegraded paramS).1,
   (c7_snapshot_degrades_not_aborts piuDegraded paramS).2.2.1 0 (by decide),
   (c7_snapshot_degrades_not_aborts piuDegraded paramS).2.2.2.1 (by decide) 0,
   (c7_snapshot_degrades_not_aborts piuDegraded paramS).2.2.2.2.1 (by decide) 0,
   (c7_snapshot_degrades_not_aborts piuDegraded paramS).2.2.2.2.2.1 0 (by decide),
   (c7_snapshot_degrades_not_aborts piuDegraded paramS).2.2.2.2.2.2 0 (by decide)⟩

theorem c9_witness :
    traceEndpoint stHeld false (.ok ()) (BackendOutcome.timeoutError "t") false
      = (.httpError 429
          "Another trace operation is in progress. Please try again later.",
         stHeld) :=
  c9_second_trace_rejected stHeld false (.ok ()) (BackendOutcome.timeoutError "t")
    false rfl rfl

theorem c10_witness :
    (traceEndpoint stFree false (.ok ()) (BackendOutcome.runtimeError "x")
        false).2.trace_lock_held = false
    ∧ (traceEndpoint stFree false (.ok ()) (BackendOutcome.runtimeError "x")
        false).2.trace_in_progress = false :=
  c10_lock_released_on_every_path stFree false (.ok ())
    (BackendOutcome.runtimeError "x") false rfl rfl

end XQsimTrace
